import Mathlib

/-!
Verification of the side-by-side diff viewer and clone-repository dialog
(`app/src/ui/diff/side-by-side-diff.tsx` and the clone-repository dialog
component), via a shallow embedding of their data model and operations.

Data types that the diff viewer imports from elsewhere in the repository
(`models/diff`, `diff-helpers`) are modelled from the spec; such definitions
carry a doc comment starting `Modelled from the spec:`. Every other
definition is a direct translation of the source.
-/

namespace Desktop

/-- The type tag of one line of a unified diff (`DiffLineType` in
`models/diff`): `Context | Add | Delete | Hunk`. The enum has exactly these
four variants, so the `assertNever` fall-through branch of
`getDiffRowsFromHunk` is unreachable by construction in this embedding. -/
inductive DiffLineType where
  | Context
  | Add
  | Delete
  | Hunk
deriving DecidableEq, Repr

/-- Modelled from the spec: one line of a unified diff (`DiffLine` in
`models/diff`, not under `src/`): content text, type tag, optional old and
new line numbers, and the trailing-newline-missing flag. -/
structure DiffLine where
  content : String
  type : DiffLineType
  oldLineNumber : Option Nat
  newLineNumber : Option Nat
  noTrailingNewLine : Bool
deriving DecidableEq, Repr

/-- Modelled from the spec: a hunk (`DiffHunk` in `models/diff`, not under
`src/`): an ordered sequence of `DiffLine` plus the starting offset of this
hunk within the unified diff text (`unifiedDiffStart`). -/
structure DiffHunk where
  lines : List DiffLine
  unifiedDiffStart : Nat
deriving DecidableEq, Repr

/-- Modelled from the spec: the text diff (`ITextDiff` in `models/diff`,
not under `src/`): the raw diff text plus the parsed hunks. -/
structure ITextDiff where
  text : String
  hunks : List DiffHunk
deriving DecidableEq, Repr

/-- Modelled from the spec: the persisted per-file selection
(`DiffSelection` in `models/diff`, not under `src/`): a set of selected
diff-relative line indices, an immutable value mutated only through
range-set operations. -/
structure DiffSelection where
  lines : Finset ℕ
deriving DecidableEq

/-- Modelled from the spec: membership query on the persisted selection. -/
def DiffSelection.isSelected (s : DiffSelection) (diffLineNumber : ℕ) : Bool :=
  diffLineNumber ∈ s.lines

/-- Modelled from the spec: select/deselect a contiguous range
(`withRangeSelection(from, length, select)`), producing a new selection. -/
def DiffSelection.withRangeSelection (s : DiffSelection) (start length : ℕ)
    (select : Bool) : DiffSelection :=
  if select then ⟨s.lines ∪ Finset.Ico start (start + length)⟩
  else ⟨s.lines \ Finset.Ico start (start + length)⟩

/-- Modelled from the spec: clear the whole selection (`withSelectNone`). -/
def DiffSelection.withSelectNone (_s : DiffSelection) : DiffSelection := ⟨∅⟩

/-- Modelled from the spec: the file whose diff is displayed (`ChangedFile`
in `diff-helpers`, not under `src/`): either a working-directory change,
which owns a persisted selection, or a committed (read-only) file change. -/
inductive ChangedFile where
  | workingDirectory (selection : DiffSelection)
  | committed
deriving DecidableEq

/-- Modelled from the spec: `canSelect` (`diff-helpers`, not under `src/`)
holds exactly when the file is a working-directory change. -/
def canSelect : ChangedFile → Bool
  | ChangedFile.workingDirectory _ => true
  | ChangedFile.committed => false

/-- The persisted selection of a selectable file (`file.selection`); a
committed file carries none, and the source only reads `file.selection`
behind a `canSelect` guard. -/
def ChangedFile.selection : ChangedFile → Option DiffSelection
  | ChangedFile.workingDirectory s => some s
  | ChangedFile.committed => none

/-- The transient selection (`ISelection` in `diff-helpers`): anchor line
(`from`), current line (`to`) and the intent captured at gesture start.
Field `from` is renamed `fromLine` (`from` is reserved in Lean), and `to`
is `toLine` to match. -/
structure ISelection where
  fromLine : ℕ
  toLine : ℕ
  isSelected : Bool
deriving DecidableEq, Repr

/-- Modelled from the spec: `isInTemporarySelection` (`diff-helpers`, not
under `src/`): whether a diff line number lies inside the inclusive range
spanned by the transient selection's two endpoints. -/
def isInTemporarySelection (s : ISelection) (diffLineNumber : ℕ) : Bool :=
  min s.fromLine s.toLine ≤ diffLineNumber &&
    diffLineNumber ≤ max s.fromLine s.toLine

/-- `isInSelection` from `side-by-side-diff.tsx`: the displayed selected
state of a diff line, combining the persisted selection with the transient
one according to the captured intent. -/
def isInSelection (diffLineNumber : ℕ) (file : ChangedFile)
    (temporarySelection : Option ISelection) : Bool :=
  match file with
  | ChangedFile.committed => false
  | ChangedFile.workingDirectory fileSelection =>
    let isInStoredSelection := fileSelection.isSelected diffLineNumber
    match temporarySelection with
    | none => isInStoredSelection
    | some temp =>
      let isInTemporary := isInTemporarySelection temp diffLineNumber
      if temp.isSelected then isInStoredSelection || isInTemporary
      else isInStoredSelection && !isInTemporary

/-- The per-side payload of a data-bearing display row (`IDiffRowData` in
`diff-helpers`): content, the file-relative line number, the diff-relative
line number used as selection key, the displayed selected flag and the
no-trailing-newline indicator. -/
structure IDiffRowData where
  content : String
  lineNumber : Nat
  diffLineNumber : Nat
  isSelected : Bool
  noNewLineIndicator : Bool
deriving DecidableEq, Repr

/-- A display row (`DiffRow` / `DiffRowType` in `diff-helpers`): one of the
five variants Hunk-header, Context, Added, Deleted, Modified. -/
inductive DiffRow where
  | hunk (content : String)
  | context (content : String) (beforeLineNumber afterLineNumber : Nat)
  | added (data : IDiffRowData) (hunkStartLine : Nat)
  | deleted (data : IDiffRowData) (hunkStartLine : Nat)
  | modified (beforeData afterData : IDiffRowData) (hunkStartLine : Nat)
      (displayDiffTokens : Bool)
deriving DecidableEq, Repr

/-- Which optional line number `getDataFromLine` reads from the diff line
(the `lineToUse` argument, a string literal union in the source). -/
inductive LineToUse where
  | oldLineNumber
  | newLineNumber
deriving DecidableEq, Repr

/-- `getDataFromLine` from `side-by-side-diff.tsx`. `forceUnwrap` of a
missing line number is a fatal error, embedded as `none`. The argument is
the accumulated pair `{ line, lineNumber }`. -/
def getDataFromLine (l : DiffLine × Nat) (lineToUse : LineToUse)
    (file : ChangedFile) (temporarySelection : Option ISelection) :
    Option IDiffRowData :=
  let chosen := match lineToUse with
    | LineToUse.oldLineNumber => l.1.oldLineNumber
    | LineToUse.newLineNumber => l.1.newLineNumber
  match chosen with
  | none => none
  | some n =>
    some { content := l.1.content
           lineNumber := n
           diffLineNumber := l.2
           isSelected := isInSelection l.2 file temporarySelection
           noNewLineIndicator := l.1.noTrailingNewLine }

/-- The tail of the `getModifiedRows` index loop once the added list is
exhausted (`numLine < deletedLines.length` only): each remaining deleted
line becomes a Deleted row. -/
def drainDeletedRows (deletedLines : List (DiffLine × Nat))
    (hunkStartLine : Nat) (file : ChangedFile)
    (temporarySelection : Option ISelection) : Option (List DiffRow) :=
  match deletedLines with
  | [] => some []
  | d :: ds => do
    let data ← getDataFromLine d LineToUse.oldLineNumber file
      temporarySelection
    let rest ← drainDeletedRows ds hunkStartLine file temporarySelection
    pure (DiffRow.deleted data hunkStartLine :: rest)

/-- The tail of the `getModifiedRows` index loop once the deleted list is
exhausted (`numLine < addedLines.length` only): each remaining added line
becomes an Added row. -/
def drainAddedRows (addedLines : List (DiffLine × Nat))
    (hunkStartLine : Nat) (file : ChangedFile)
    (temporarySelection : Option ISelection) : Option (List DiffRow) :=
  match addedLines with
  | [] => some []
  | a :: as => do
    let data ← getDataFromLine a LineToUse.newLineNumber file
      temporarySelection
    let rest ← drainAddedRows as hunkStartLine file temporarySelection
    pure (DiffRow.added data hunkStartLine :: rest)

/-- The index loop of `getModifiedRows`: walk the filtered added and
deleted lists in lockstep (`numLine` indexes both); while both have an
entry emit a Modified row pairing `deletedLines[numLine]` (before) with
`addedLines[numLine]` (after), then drain whichever list is longer into
Deleted resp. Added rows. `forceUnwrap` failures propagate as `none`. -/
def pairModifiedRows (addedLines deletedLines : List (DiffLine × Nat))
    (hunkStartLine : Nat) (shouldDisplayDiffInChunk : Bool)
    (file : ChangedFile) (temporarySelection : Option ISelection) :
    Option (List DiffRow) :=
  match addedLines, deletedLines with
  | [], ds => drainDeletedRows ds hunkStartLine file temporarySelection
  | as, [] => drainAddedRows as hunkStartLine file temporarySelection
  | a :: as, d :: ds => do
    let beforeData ← getDataFromLine d LineToUse.oldLineNumber file
      temporarySelection
    let afterData ← getDataFromLine a LineToUse.newLineNumber file
      temporarySelection
    let rest ← pairModifiedRows as ds hunkStartLine shouldDisplayDiffInChunk
      file temporarySelection
    pure (DiffRow.modified beforeData afterData hunkStartLine
      shouldDisplayDiffInChunk :: rest)

/-- `getModifiedRows` from `side-by-side-diff.tsx`: flush one maximal run
of Add/Delete lines into display rows. -/
def getModifiedRows (addedDeletedLines : List (DiffLine × Nat))
    (file : ChangedFile) (temporarySelection : Option ISelection) :
    Option (List DiffRow) :=
  match addedDeletedLines with
  | [] => some []
  | first :: _ =>
    let hunkStartLine := first.2
    let addedLines := addedDeletedLines.filter
      (fun l => l.1.type = DiffLineType.Add)
    let deletedLines := addedDeletedLines.filter
      (fun l => l.1.type = DiffLineType.Delete)
    let shouldDisplayDiffInChunk :=
      addedLines.length = deletedLines.length
    pairModifiedRows addedLines deletedLines hunkStartLine
      shouldDisplayDiffInChunk file temporarySelection

/-- The loop body of `getDiffRowsFromHunk`: walk the hunk's lines (paired
with their index `num` within the hunk) keeping the accumulated run of
Add/Delete lines (`modifiedLines` in the source); flush the run via
`getModifiedRows` on a Context or Hunk-header line and at the end.
`assertNonNullable` failures on a Context line's numbers are embedded as
`none`; `assertNever` has no corresponding branch because `DiffLineType`
has exactly the four known variants. -/
def hunkRowsGo (unifiedDiffStart : Nat) (file : ChangedFile)
    (temporarySelection : Option ISelection)
    (modifiedLines : List (DiffLine × Nat)) :
    List (Nat × DiffLine) → Option (List DiffRow)
  | [] => getModifiedRows modifiedLines file temporarySelection
  | (num, line) :: rest =>
    match line.type with
    | DiffLineType.Delete =>
      hunkRowsGo unifiedDiffStart file temporarySelection
        (modifiedLines ++ [(line, unifiedDiffStart + num)]) rest
    | DiffLineType.Add =>
      hunkRowsGo unifiedDiffStart file temporarySelection
        (modifiedLines ++ [(line, unifiedDiffStart + num)]) rest
    | DiffLineType.Hunk => do
      let flushed ← getModifiedRows modifiedLines file temporarySelection
      let restRows ← hunkRowsGo unifiedDiffStart file temporarySelection []
        rest
      pure (flushed ++ DiffRow.hunk line.content :: restRows)
    | DiffLineType.Context =>
      match line.oldLineNumber, line.newLineNumber with
      | some oldNum, some newNum => do
        let flushed ← getModifiedRows modifiedLines file temporarySelection
        let restRows ← hunkRowsGo unifiedDiffStart file temporarySelection
          [] rest
        pure (flushed ++
          DiffRow.context line.content oldNum newNum :: restRows)
      | _, _ => none

/-- `getDiffRowsFromHunk` from `side-by-side-diff.tsx`. -/
def getDiffRowsFromHunk (hunk : DiffHunk) (file : ChangedFile)
    (temporarySelection : Option ISelection) : Option (List DiffRow) :=
  hunkRowsGo hunk.unifiedDiffStart file temporarySelection [] hunk.lines.enum

/-- `getDiffRows` from `side-by-side-diff.tsx`: concatenate the rows of
every hunk. The `memoize` wrapper is a pure cache and is not modelled. -/
def getDiffRows (diff : ITextDiff) (file : ChangedFile)
    (temporarySelection : Option ISelection) : Option (List DiffRow) := do
  let rowss ← diff.hunks.mapM
    (fun hunk => getDiffRowsFromHunk hunk file temporarySelection)
  pure rowss.flatten

/-! ## Selection Range Tracker (component state and event handlers) -/

/-- The slice of `ISideBySideDiffState` that the selection and hover
handlers read and write: the transient selection and the hovered hunk.
React's `setState` merges partial updates, so a handler that omits a field
leaves it unchanged; the embedding makes that explicit with `{ st with }`. -/
structure SelectionTrackerState where
  selection : Option ISelection
  hoveredHunk : Option Nat
deriving DecidableEq, Repr

/-- `onStartSelection` from `side-by-side-diff.tsx`: capture the starting
line as both ends of the transient selection, with the caller-supplied
intent. (The one-shot global `mouseup` listener registration is event
wiring, not state.) -/
def onStartSelection (lineNumber : Nat) (select : Bool)
    (st : SelectionTrackerState) : SelectionTrackerState :=
  { st with selection := some ⟨lineNumber, lineNumber, select⟩ }

/-- `onUpdateSelection` from `side-by-side-diff.tsx`: move the `to` end of
the transient selection to the hovered line; no-op when idle. -/
def onUpdateSelection (lineNumber : Nat) (st : SelectionTrackerState) :
    SelectionTrackerState :=
  match st.selection with
  | none => st
  | some sel => { st with selection := some { sel with toLine := lineNumber } }

/-- `onEndSelection` from `side-by-side-diff.tsx`: on global pointer-up,
reconcile the transient selection into the persisted one. Returns the new
component state together with the `DiffSelection` passed to
`onIncludeChanged` (`none` when no call is made). `hasOnIncludeChanged`
models whether the optional `onIncludeChanged` prop is defined. The guards
appear in source order: `canSelect`, transient-selection presence, handler
presence; note the handler guard returns before the `setState` that clears
the transient selection. -/
def onEndSelection (file : ChangedFile) (hasOnIncludeChanged : Bool)
    (st : SelectionTrackerState) :
    SelectionTrackerState × Option DiffSelection :=
  match file with
  | ChangedFile.committed => (st, none)
  | ChangedFile.workingDirectory fileSelection =>
    match st.selection with
    | none => (st, none)
    | some sel =>
      if hasOnIncludeChanged then
        let start := min sel.fromLine sel.toLine
        let stop := max sel.fromLine sel.toLine
        ({ st with selection := none },
         some (fileSelection.withRangeSelection start (stop - start + 1)
           sel.isSelected))
      else (st, none)

/-- `onMouseEnterHunk` from `side-by-side-diff.tsx`: record the hovered
hunk, unless a drag is active (then the update is suppressed). -/
def onMouseEnterHunk (hunkStartLine : Nat) (st : SelectionTrackerState) :
    SelectionTrackerState :=
  match st.selection with
  | some _ => st
  | none => { st with hoveredHunk := some hunkStartLine }

/-- `onMouseLeaveHunk` from `side-by-side-diff.tsx`: clear the hovered
hunk unconditionally. -/
def onMouseLeaveHunk (st : SelectionTrackerState) : SelectionTrackerState :=
  { st with hoveredHunk := none }

/-! ## Background tokenization (`initDiffSyntaxMode`) -/

/-- The props that `highlightParametersEqual` compares: the displayed
file's identity and the diff text. -/
structure HighlightProps where
  fileId : String
  diffText : String
deriving DecidableEq, Repr

/-- `highlightParametersEqual` from `side-by-side-diff.tsx`. The source
first short-circuits on reference equality (`newProps === prevProps`),
which implies field equality, so the observable result is field equality
of `file.id` and `diff.text`. -/
def highlightParametersEqual (newProps prevProps : HighlightProps) : Bool :=
  newProps.fileId = prevProps.fileId && newProps.diffText = prevProps.diffText

/-- The token slice of `ISideBySideDiffState` written by
`initDiffSyntaxMode`, abstract in the token type. -/
structure TokenState (Tok : Type) where
  beforeTokens : Option Tok
  afterTokens : Option Tok
deriving DecidableEq, Repr

/-- `initDiffSyntaxMode` from `side-by-side-diff.tsx`, as a function of the
interleaving: `propsSnapshot` is captured at issue time; `propsAtContents`
are the live props when `getFileContents` resolves, `propsAtHighlight` the
live props when `highlightContents` resolves. Each checkpoint aborts
(leaving the token state unchanged) when the live props no longer equal the
snapshot; otherwise the resolved before/after tokens are stored. -/
def initDiffSyntaxMode {Tok : Type} (propsSnapshot : HighlightProps)
    (propsAtContents propsAtHighlight : HighlightProps)
    (oldTokens newTokens : Tok) (st : TokenState Tok) : TokenState Tok :=
  if !highlightParametersEqual propsAtContents propsSnapshot then st
  else if !highlightParametersEqual propsAtHighlight propsSnapshot then st
  else { beforeTokens := some oldTokens, afterTokens := some newTokens }

/-! ## Clone-repository dialog -/

/-- The name for the error when the destination already exists
(`DestinationExistsErrorName`). -/
def DestinationExistsErrorName : String := "DestinationExistsError"

/-- A JavaScript `Error` as the dialog uses it: a name and a message. -/
structure DialogErrorValue where
  name : String
  message : String
deriving DecidableEq, Repr

/-- The slice of `ICloneRepositoryState` that the path-existence check and
the submit-button logic touch. -/
structure CloneRepositoryState where
  url : String
  path : String
  loading : Bool
  error : Option DialogErrorValue
deriving DecidableEq, Repr

/-- The completion callback of `checkPathValid` from the clone-repository
dialog: when `FS.exists` resolves with `pathExists` for the checked path
`newPath`, the result is dropped if the current path has changed;
otherwise the error is set to the named destination-exists error when the
path exists and cleared when it does not. -/
def checkPathValidCompletion (newPath : String) (pathExists : Bool)
    (st : CloneRepositoryState) : CloneRepositoryState :=
  if st.path ≠ newPath then st
  else
    let error : Option DialogErrorValue :=
      if pathExists then
        some ⟨DestinationExistsErrorName, "The destination already exists."⟩
      else none
    { st with error := error }

/-- The `disabled` expression of the dialog's `render`: the Clone submit
button is disabled when the URL or path is empty, a clone is loading, or
the current error is the named destination-exists error. -/
def cloneSubmitDisabled (st : CloneRepositoryState) : Bool :=
  st.url.length = 0 || st.path.length = 0 || st.loading ||
    (match st.error with
     | some e => e.name = DestinationExistsErrorName
     | none => false)

/-! ## Concrete sample inputs used to exercise the definitions -/

/-- A small concrete diff: one hunk with a header line, two deletions, one
addition and a context line. -/
def sampleDiff : ITextDiff :=
  ⟨"t", [⟨[⟨"@@", DiffLineType.Hunk, none, none, false⟩,
           ⟨"d", DiffLineType.Delete, some 4, none, false⟩,
           ⟨"d", DiffLineType.Delete, some 4, none, false⟩,
           ⟨"a", DiffLineType.Add, none, some 4, false⟩,
           ⟨"c", DiffLineType.Context, some 4, some 7, false⟩], 0⟩]⟩

/-- The rows `getDiffRows` produces for `sampleDiff` on a committed file. -/
def sampleRows : List DiffRow :=
  [DiffRow.hunk "@@",
   DiffRow.modified ⟨"d", 4, 1, false, false⟩ ⟨"a", 4, 3, false, false⟩
     1 false,
   DiffRow.deleted ⟨"d", 4, 2, false, false⟩ 1,
   DiffRow.context "c" 4 7]

/-- A balanced run: one Delete line paired with one Add line. -/
def sampleRun : List (DiffLine × Nat) :=
  [(⟨"d", DiffLineType.Delete, some 4, none, false⟩, 1),
   (⟨"a", DiffLineType.Add, none, some 4, false⟩, 2)]

/-- A hunk holding a single well-formed context line. -/
def sampleContextHunk : DiffHunk :=
  ⟨[⟨"c", DiffLineType.Context, some 4, some 7, false⟩], 3⟩

/-- A hunk holding a context line with no old line number. -/
def sampleBadHunk : DiffHunk :=
  ⟨[⟨"c", DiffLineType.Context, none, some 7, false⟩], 3⟩

/-! ## Row and line counters used by the conservation statement -/

/-- Whether a diff line is a change line (type Add or Delete). -/
def isAddOrDelete (l : DiffLine) : Bool :=
  l.type = DiffLineType.Add || l.type = DiffLineType.Delete

/-- The number of change lines (type Add or Delete) in a list. -/
def countAddDelete (lines : List DiffLine) : Nat :=
  lines.countP isAddOrDelete

/-- The number of Added rows in a row list. -/
def countAddedRows (rows : List DiffRow) : Nat :=
  rows.countP fun r => match r with
    | DiffRow.added _ _ => true
    | _ => false

/-- The number of Deleted rows in a row list. -/
def countDeletedRows (rows : List DiffRow) : Nat :=
  rows.countP fun r => match r with
    | DiffRow.deleted _ _ => true
    | _ => false

/-- The number of Modified rows in a row list. -/
def countModifiedRows (rows : List DiffRow) : Nat :=
  rows.countP fun r => match r with
    | DiffRow.modified _ _ _ _ => true
    | _ => false

/-- The Added + Deleted + 2·Modified data-line total of a row list. -/
def rowDataLineTotal (rows : List DiffRow) : Nat :=
  countAddedRows rows + countDeletedRows rows + 2 * countModifiedRows rows

/-! ## Theorems -/

/-- Membership in the result of a range update: inside the range the new
value is the requested one, outside the selection is unchanged. -/
theorem withRangeSelection_isSelected (S : DiffSelection) (start len : ℕ)
    (select : Bool) (n : ℕ) :
    (S.withRangeSelection start len select).isSelected n =
      if start ≤ n ∧ n < start + len then select else S.isSelected n := by
  cases select <;> by_cases hr : start ≤ n ∧ n < start + len <;>
    simp [DiffSelection.withRangeSelection, DiffSelection.isSelected,
      Finset.mem_Ico, hr]

/-- `rowDataLineTotal` distributes over append. -/
theorem rowDataLineTotal_append (xs ys : List DiffRow) :
    rowDataLineTotal (xs ++ ys) = rowDataLineTotal xs + rowDataLineTotal ys := by
  simp only [rowDataLineTotal, countAddedRows, countDeletedRows,
    countModifiedRows, List.countP_append]
  ring

/-- `rowDataLineTotal` of a cons adds the row's data-line weight. -/
theorem rowDataLineTotal_cons (r : DiffRow) (rows : List DiffRow) :
    rowDataLineTotal (r :: rows) = rowDataLineTotal rows +
      (match r with
       | DiffRow.added _ _ => 1
       | DiffRow.deleted _ _ => 1
       | DiffRow.modified _ _ _ _ => 2
       | _ => 0) := by
  cases r <;>
    simp only [rowDataLineTotal, countAddedRows, countDeletedRows,
      countModifiedRows, List.countP_cons] <;>
    simp <;> ring

/-- Draining leftover deleted lines conserves data lines. -/
theorem drainDeletedRows_total (hunkStartLine : Nat) (file : ChangedFile)
    (tempSel : Option ISelection) :
    ∀ (ds : List (DiffLine × Nat)) (rows : List DiffRow),
      drainDeletedRows ds hunkStartLine file tempSel = some rows →
      rowDataLineTotal rows = ds.length := by
  intro ds
  induction ds with
  | nil =>
    intro rows h
    simp only [drainDeletedRows, Option.some.injEq] at h
    subst h
    rfl
  | cons d ds ih =>
    intro rows h
    simp only [drainDeletedRows, Option.pure_def, Option.bind_eq_bind,
      Option.bind_eq_some, Option.some.injEq] at h
    obtain ⟨data, _, rest, hrest, hrows⟩ := h
    subst hrows
    rw [rowDataLineTotal_cons, ih rest hrest]
    simp

/-- Draining leftover added lines conserves data lines. -/
theorem drainAddedRows_total (hunkStartLine : Nat) (file : ChangedFile)
    (tempSel : Option ISelection) :
    ∀ (as : List (DiffLine × Nat)) (rows : List DiffRow),
      drainAddedRows as hunkStartLine file tempSel = some rows →
      rowDataLineTotal rows = as.length := by
  intro as
  induction as with
  | nil =>
    intro rows h
    simp only [drainAddedRows, Option.some.injEq] at h
    subst h
    rfl
  | cons a as ih =>
    intro rows h
    simp only [drainAddedRows, Option.pure_def, Option.bind_eq_bind,
      Option.bind_eq_some, Option.some.injEq] at h
    obtain ⟨data, _, rest, hrest, hrows⟩ := h
    subst hrows
    rw [rowDataLineTotal_cons, ih rest hrest]
    simp

/-- The pairing loop conserves data lines: every successful run of
`pairModifiedRows` emits exactly one data line per input added line and one
per input deleted line (a Modified row accounts for two). -/
theorem pairModifiedRows_total (hunkStartLine : Nat) (b : Bool)
    (file : ChangedFile) (tempSel : Option ISelection) :
    ∀ (as ds : List (DiffLine × Nat)) (rows : List DiffRow),
      pairModifiedRows as ds hunkStartLine b file tempSel = some rows →
      rowDataLineTotal rows = as.length + ds.length := by
  intro as
  induction as with
  | nil =>
    intro ds rows h
    simp only [pairModifiedRows] at h
    rw [drainDeletedRows_total hunkStartLine file tempSel ds rows h]
    simp
  | cons a as ih =>
    intro ds rows h
    cases ds with
    | nil =>
      simp only [pairModifiedRows] at h
      rw [drainAddedRows_total hunkStartLine file tempSel (a :: as) rows h]
      simp
    | cons d ds =>
      simp only [pairModifiedRows, Option.pure_def, Option.bind_eq_bind,
        Option.bind_eq_some, Option.some.injEq] at h
      obtain ⟨bd, _, ad, _, rest, hrest, hrows⟩ := h
      subst hrows
      rw [rowDataLineTotal_cons, ih ds rest hrest]
      simp
      omega

/-- Splitting a list's change-line count by Add and Delete. -/
theorem countP_add_delete_split (l : List (DiffLine × Nat)) :
    (l.filter fun p => p.1.type = DiffLineType.Add).length +
      (l.filter fun p => p.1.type = DiffLineType.Delete).length =
      l.countP fun p => isAddOrDelete p.1 := by
  induction l with
  | nil => rfl
  | cons p l ih =>
    obtain ⟨⟨content, ty, oldN, newN, ntl⟩, num⟩ := p
    simp only [isAddOrDelete] at ih ⊢
    cases ty <;>
      simp [List.filter_cons, List.countP_cons] <;> omega

/-- `getModifiedRows` conserves data lines: on a run consisting of change
lines, the Added + Deleted + 2·Modified total equals the run's number of
Add/Delete lines. -/
theorem getModifiedRows_total (run : List (DiffLine × Nat))
    (file : ChangedFile) (tempSel : Option ISelection) (rows : List DiffRow)
    (h : getModifiedRows run file tempSel = some rows) :
    rowDataLineTotal rows = run.countP fun p => isAddOrDelete p.1 := by
  cases run with
  | nil =>
    simp only [getModifiedRows, Option.some.injEq] at h
    subst h
    rfl
  | cons first rest =>
    simp only [getModifiedRows] at h
    have := pairModifiedRows_total first.2 _ file tempSel _ _ rows h
    rw [this, ← countP_add_delete_split (first :: rest)]

/-- The hunk loop conserves data lines: a successful `hunkRowsGo` pass
emits one data line per Add/Delete line in the pending run plus one per
Add/Delete line in the remaining input. -/
theorem hunkRowsGo_total (u : Nat) (file : ChangedFile)
    (tempSel : Option ISelection) :
    ∀ (rest : List (Nat × DiffLine)) (acc : List (DiffLine × Nat))
      (rows : List DiffRow),
      hunkRowsGo u file tempSel acc rest = some rows →
      rowDataLineTotal rows =
        (acc.countP fun p => isAddOrDelete p.1) +
          (rest.countP fun p => isAddOrDelete p.2) := by
  intro rest
  induction rest with
  | nil =>
    intro acc rows h
    simp only [hunkRowsGo] at h
    rw [getModifiedRows_total acc file tempSel rows h]
    simp
  | cons p rest ih =>
    obtain ⟨num, ⟨content, ty, oldN, newN, ntl⟩⟩ := p
    intro acc rows h
    simp only [hunkRowsGo] at h
    cases ty with
    | Delete =>
      rw [ih _ rows h]
      simp [List.countP_append, List.countP_cons, isAddOrDelete]
      omega
    | Add =>
      rw [ih _ rows h]
      simp [List.countP_append, List.countP_cons, isAddOrDelete]
      omega
    | Hunk =>
      simp only [Option.pure_def, Option.bind_eq_bind, Option.bind_eq_some,
        Option.some.injEq] at h
      obtain ⟨flushed, hflushed, restRows, hrest, hrows⟩ := h
      subst hrows
      rw [rowDataLineTotal_append, rowDataLineTotal_cons,
        getModifiedRows_total acc file tempSel flushed hflushed,
        ih [] restRows hrest]
      simp [List.countP_cons, isAddOrDelete]
    | Context =>
      cases oldN with
      | none => exact absurd h (by simp)
      | some o =>
        cases newN with
        | none => exact absurd h (by simp)
        | some nn =>
          simp only [Option.pure_def, Option.bind_eq_bind,
            Option.bind_eq_some, Option.some.injEq] at h
          obtain ⟨flushed, hflushed, restRows, hrest, hrows⟩ := h
          subst hrows
          rw [rowDataLineTotal_append, rowDataLineTotal_cons,
            getModifiedRows_total acc file tempSel flushed hflushed,
            ih [] restRows hrest]
          simp [List.countP_cons, isAddOrDelete]

/-- Counting over an enumerated list by a predicate on the element. -/
theorem countP_enumFrom {α : Type} (q : α → Bool) :
    ∀ (l : List α) (i : ℕ),
      ((List.enumFrom i l).countP fun p => q p.2) = l.countP q := by
  intro l
  induction l with
  | nil => intro i; rfl
  | cons a l ih =>
    intro i
    simp [List.enumFrom, List.countP_cons, ih]

/-- A successful `getDiffRowsFromHunk` pass conserves data lines. -/
theorem getDiffRowsFromHunk_total (hunk : DiffHunk) (file : ChangedFile)
    (tempSel : Option ISelection) (rows : List DiffRow)
    (h : getDiffRowsFromHunk hunk file tempSel = some rows) :
    rowDataLineTotal rows = countAddDelete hunk.lines := by
  have := hunkRowsGo_total hunk.unifiedDiffStart file tempSel
    hunk.lines.enum [] rows h
  rw [this, countAddDelete, List.enum, countP_enumFrom]
  simp

/-- Data-line conservation for the per-hunk `mapM` of `getDiffRows`. -/
theorem mapM_rows_total (file : ChangedFile) (tempSel : Option ISelection) :
    ∀ (hunks : List DiffHunk) (rowss : List (List DiffRow)),
      hunks.mapM (fun hunk => getDiffRowsFromHunk hunk file tempSel) =
        some rowss →
      rowDataLineTotal rowss.flatten =
        countAddDelete (hunks.map DiffHunk.lines).flatten := by
  intro hunks
  induction hunks with
  | nil =>
    intro rowss h
    simp only [List.mapM_nil, Option.pure_def, Option.some.injEq] at h
    subst h
    rfl
  | cons hk hks ih =>
    intro rowss h
    rw [List.mapM_cons] at h
    simp only [Option.pure_def, Option.bind_eq_bind, Option.bind_eq_some,
      Option.some.injEq] at h
    obtain ⟨r, hr, rs, hrs, hrowss⟩ := h
    subst hrowss
    simp only [List.flatten_cons, List.map_cons]
    rw [rowDataLineTotal_append,
      getDiffRowsFromHunk_total hk file tempSel r hr, ih rs hrs]
    simp [countAddDelete, List.countP_append]

/-- C1: for every diff, the rows produced by the Diff Row Builder conserve
the input change lines: Added rows + Deleted rows + 2·Modified rows
equals the number of input lines of type Add or Delete. -/
theorem rows_conserve_change_lines (diff : ITextDiff) (file : ChangedFile)
    (tempSel : Option ISelection) (rows : List DiffRow)
    (h : getDiffRows diff file tempSel = some rows) :
    countAddedRows rows + countDeletedRows rows +
      2 * countModifiedRows rows =
      countAddDelete (diff.hunks.map DiffHunk.lines).flatten := by
  simp only [getDiffRows, Option.pure_def, Option.bind_eq_bind,
    Option.bind_eq_some, Option.some.injEq] at h
  obtain ⟨rowss, hrowss, hrows⟩ := h
  subst hrows
  exact mapM_rows_total file tempSel diff.hunks rowss hrowss

/-- C1 witness. -/
theorem rows_conserve_change_lines_witness :
    countAddedRows sampleRows + countDeletedRows sampleRows +
      2 * countModifiedRows sampleRows =
      countAddDelete (sampleDiff.hunks.map DiffHunk.lines).flatten :=
  rows_conserve_change_lines sampleDiff ChangedFile.committed none
    sampleRows (by decide)

/-- Draining leftover deleted lines emits no Modified row. -/
theorem drainDeletedRows_no_modified (hunkStartLine : Nat)
    (file : ChangedFile) (tempSel : Option ISelection) :
    ∀ (ds : List (DiffLine × Nat)) (rows : List DiffRow),
      drainDeletedRows ds hunkStartLine file tempSel = some rows →
      ∀ bd ad hs fl, DiffRow.modified bd ad hs fl ∈ rows → False := by
  intro ds
  induction ds with
  | nil =>
    intro rows h bd ad hs fl hmem
    simp only [drainDeletedRows, Option.some.injEq] at h
    subst h
    simp at hmem
  | cons d ds ih =>
    intro rows h bd ad hs fl hmem
    simp only [drainDeletedRows, Option.pure_def, Option.bind_eq_bind,
      Option.bind_eq_some, Option.some.injEq] at h
    obtain ⟨data, _, rest, hrest, hrows⟩ := h
    subst hrows
    rcases List.mem_cons.mp hmem with heq | hmem'
    · exact absurd heq (by simp)
    · exact ih rest hrest bd ad hs fl hmem'

/-- Draining leftover added lines emits no Modified row. -/
theorem drainAddedRows_no_modified (hunkStartLine : Nat)
    (file : ChangedFile) (tempSel : Option ISelection) :
    ∀ (as : List (DiffLine × Nat)) (rows : List DiffRow),
      drainAddedRows as hunkStartLine file tempSel = some rows →
      ∀ bd ad hs fl, DiffRow.modified bd ad hs fl ∈ rows → False := by
  intro as
  induction as with
  | nil =>
    intro rows h bd ad hs fl hmem
    simp only [drainAddedRows, Option.some.injEq] at h
    subst h
    simp at hmem
  | cons a as ih =>
    intro rows h bd ad hs fl hmem
    simp only [drainAddedRows, Option.pure_def, Option.bind_eq_bind,
      Option.bind_eq_some, Option.some.injEq] at h
    obtain ⟨data, _, rest, hrest, hrows⟩ := h
    subst hrows
    rcases List.mem_cons.mp hmem with heq | hmem'
    · exact absurd heq (by simp)
    · exact ih rest hrest bd ad hs fl hmem'

/-- Every Modified row that the pairing loop emits carries the flag it was
given. -/
theorem pairModifiedRows_flag (hunkStartLine : Nat) (b : Bool)
    (file : ChangedFile) (tempSel : Option ISelection) :
    ∀ (as ds : List (DiffLine × Nat)) (rows : List DiffRow),
      pairModifiedRows as ds hunkStartLine b file tempSel = some rows →
      ∀ bd ad hs fl, DiffRow.modified bd ad hs fl ∈ rows → fl = b := by
  intro as
  induction as with
  | nil =>
    intro ds rows h bd ad hs fl hmem
    simp only [pairModifiedRows] at h
    exact absurd hmem fun hm =>
      drainDeletedRows_no_modified hunkStartLine file tempSel ds rows h
        bd ad hs fl hm
  | cons a as ih =>
    intro ds rows h bd ad hs fl hmem
    cases ds with
    | nil =>
      simp only [pairModifiedRows] at h
      exact absurd hmem fun hm =>
        drainAddedRows_no_modified hunkStartLine file tempSel (a :: as)
          rows h bd ad hs fl hm
    | cons d ds =>
      simp only [pairModifiedRows, Option.pure_def, Option.bind_eq_bind,
        Option.bind_eq_some, Option.some.injEq] at h
      obtain ⟨bd', _, ad', _, rest, hrest, hrows⟩ := h
      subst hrows
      rcases List.mem_cons.mp hmem with heq | hmem'
      · cases heq
        rfl
      · exact ih ds rest hrest bd ad hs fl hmem'

/-- C2: for every run of Add/Delete lines flushed through
`getModifiedRows`, each emitted Modified row carries the intra-line
diff-highlight flag (`displayDiffTokens`) true exactly when the run's
count of Add lines equals its count of Delete lines; since the right-hand
side mentions only the run, the flag has the same value on every Modified
row of the run. -/
theorem modified_flag_iff_balanced_run (run : List (DiffLine × Nat))
    (file : ChangedFile) (tempSel : Option ISelection) (rows : List DiffRow)
    (h : getModifiedRows run file tempSel = some rows) :
    ∀ beforeData afterData hunkStartLine flag,
      DiffRow.modified beforeData afterData hunkStartLine flag ∈ rows →
      (flag = true ↔
        (run.filter fun l => l.1.type = DiffLineType.Add).length =
          (run.filter fun l => l.1.type = DiffLineType.Delete).length) := by
  intro bd ad hs fl hmem
  cases run with
  | nil =>
    simp only [getModifiedRows, Option.some.injEq] at h
    subst h
    simp at hmem
  | cons first rest =>
    simp only [getModifiedRows] at h
    have := pairModifiedRows_flag first.2 _ file tempSel _ _ rows h
      bd ad hs fl hmem
    subst this
    simp

/-- C2 witness. -/
theorem modified_flag_iff_balanced_run_witness :
    (true = true ↔
      (sampleRun.filter fun l => l.1.type = DiffLineType.Add).length =
        (sampleRun.filter fun l => l.1.type = DiffLineType.Delete).length) :=
  modified_flag_iff_balanced_run sampleRun ChangedFile.committed none
    [DiffRow.modified ⟨"d", 4, 1, false, false⟩ ⟨"a", 4, 2, false, false⟩
      1 true]
    (by decide) ⟨"d", 4, 1, false, false⟩ ⟨"a", 4, 2, false, false⟩ 1 true
    (by decide)

/-- Every Context line reaching a successful `hunkRowsGo` pass has both
line numbers present and yields a Context row carrying them. -/
theorem hunkRowsGo_context_mem (u : Nat) (file : ChangedFile)
    (tempSel : Option ISelection) :
    ∀ (rest : List (Nat × DiffLine)) (acc : List (DiffLine × Nat))
      (rows : List DiffRow),
      hunkRowsGo u file tempSel acc rest = some rows →
      ∀ p ∈ rest, (p.2).type = DiffLineType.Context →
        ∃ o n, (p.2).oldLineNumber = some o ∧
          (p.2).newLineNumber = some n ∧
          DiffRow.context (p.2).content o n ∈ rows := by
  intro rest
  induction rest with
  | nil =>
    intro acc rows _ p hp
    simp at hp
  | cons q rest ih =>
    obtain ⟨num, ⟨content, ty, oldN, newN, ntl⟩⟩ := q
    intro acc rows h p hp htype
    simp only [hunkRowsGo] at h
    rcases List.mem_cons.mp hp with rfl | hp'
    · simp only at htype
      subst htype
      cases oldN with
      | none => exact absurd h (by simp)
      | some o =>
        cases newN with
        | none => exact absurd h (by simp)
        | some nn =>
          simp only [Option.pure_def, Option.bind_eq_bind,
            Option.bind_eq_some, Option.some.injEq] at h
          obtain ⟨flushed, _, restRows, _, hrows⟩ := h
          subst hrows
          exact ⟨o, nn, rfl, rfl,
            List.mem_append_right _ (List.mem_cons_self _ _)⟩
    · cases ty with
      | Delete => exact ih _ rows h p hp' htype
      | Add => exact ih _ rows h p hp' htype
      | Hunk =>
        simp only [Option.pure_def, Option.bind_eq_bind,
          Option.bind_eq_some, Option.some.injEq] at h
        obtain ⟨flushed, _, restRows, hrest, hrows⟩ := h
        subst hrows
        obtain ⟨o, n, ho, hn, hc⟩ := ih [] restRows hrest p hp' htype
        exact ⟨o, n, ho, hn,
          List.mem_append_right _ (List.mem_cons_of_mem _ hc)⟩
      | Context =>
        cases oldN with
        | none => exact absurd h (by simp)
        | some o' =>
          cases newN with
          | none => exact absurd h (by simp)
          | some nn' =>
            simp only [Option.pure_def, Option.bind_eq_bind,
              Option.bind_eq_some, Option.some.injEq] at h
            obtain ⟨flushed, _, restRows, hrest, hrows⟩ := h
            subst hrows
            obtain ⟨o, n, ho, hn, hc⟩ := ih [] restRows hrest p hp' htype
            exact ⟨o, n, ho, hn,
              List.mem_append_right _ (List.mem_cons_of_mem _ hc)⟩

/-- A Context line missing a line number anywhere in the remaining input
makes `hunkRowsGo` fail (the `assertNonNullable` contract violation). -/
theorem hunkRowsGo_malformed_none (u : Nat) (file : ChangedFile)
    (tempSel : Option ISelection) :
    ∀ (rest : List (Nat × DiffLine)) (acc : List (DiffLine × Nat)),
      (∃ p ∈ rest, (p.2).type = DiffLineType.Context ∧
        ((p.2).oldLineNumber = none ∨ (p.2).newLineNumber = none)) →
      hunkRowsGo u file tempSel acc rest = none := by
  intro rest
  induction rest with
  | nil =>
    rintro acc ⟨p, hp, _⟩
    simp at hp
  | cons q rest ih =>
    obtain ⟨num, ⟨content, ty, oldN, newN, ntl⟩⟩ := q
    rintro acc ⟨p, hp, htype, hbad⟩
    rcases List.mem_cons.mp hp with rfl | hp'
    · simp only at htype hbad
      subst htype
      rcases hbad with rfl | rfl
      · simp [hunkRowsGo]
      · cases oldN <;> simp [hunkRowsGo]
    · have hrest : hunkRowsGo u file tempSel [] rest = none :=
        ih [] ⟨p, hp', htype, hbad⟩
      have hrest' : ∀ acc', hunkRowsGo u file tempSel acc' rest = none :=
        fun acc' => ih acc' ⟨p, hp', htype, hbad⟩
      cases ty with
      | Delete => simp [hunkRowsGo, hrest']
      | Add => simp [hunkRowsGo, hrest']
      | Hunk =>
        simp only [hunkRowsGo, hrest]
        cases getModifiedRows acc file tempSel <;> rfl
      | Context =>
        cases oldN with
        | none => simp [hunkRowsGo]
        | some o' =>
          cases newN with
          | none => simp [hunkRowsGo]
          | some nn' =>
            simp only [hunkRowsGo, hrest]
            cases getModifiedRows acc file tempSel <;> rfl

/-- Every element of a list appears, with some index, in its
enumeration. -/
theorem exists_enumFrom_pair {α : Type} :
    ∀ (l : List α) (i : ℕ) (a : α), a ∈ l →
      ∃ n, (n, a) ∈ List.enumFrom i l := by
  intro l
  induction l with
  | nil =>
    intro i a ha
    simp at ha
  | cons b l ih =>
    intro i a ha
    rcases List.mem_cons.mp ha with rfl | ha'
    · exact ⟨i, by simp [List.enumFrom]⟩
    · obtain ⟨n, hn⟩ := ih (i + 1) a ha'
      exact ⟨n, by simp [List.enumFrom, hn]⟩

/-- C7: every Context line with both line numbers yields a Context row
carrying exactly those numbers as its before/after line numbers, and a
Context line missing either number makes the whole hunk's row construction
fail (the fatal assertion) instead of emitting a malformed row. An
unrecognized line-type tag cannot arise: `DiffLineType` has exactly the
four known variants, so the `assertNever` branch is unreachable. -/
theorem context_rows_carry_line_numbers (hunk : DiffHunk)
    (file : ChangedFile) (tempSel : Option ISelection) :
    (∀ rows, getDiffRowsFromHunk hunk file tempSel = some rows →
      ∀ line ∈ hunk.lines, line.type = DiffLineType.Context →
        ∃ o n, line.oldLineNumber = some o ∧ line.newLineNumber = some n ∧
          DiffRow.context line.content o n ∈ rows)
    ∧ ((∃ line ∈ hunk.lines, line.type = DiffLineType.Context ∧
          (line.oldLineNumber = none ∨ line.newLineNumber = none)) →
        getDiffRowsFromHunk hunk file tempSel = none) := by
  constructor
  · intro rows h line hline htype
    obtain ⟨n, hn⟩ := exists_enumFrom_pair hunk.lines 0 line hline
    exact hunkRowsGo_context_mem hunk.unifiedDiffStart file tempSel
      hunk.lines.enum [] rows h (n, line) hn htype
  · rintro ⟨line, hline, htype, hbad⟩
    obtain ⟨n, hn⟩ := exists_enumFrom_pair hunk.lines 0 line hline
    exact hunkRowsGo_malformed_none hunk.unifiedDiffStart file tempSel
      hunk.lines.enum [] ⟨(n, line), hn, htype, hbad⟩

/-- C7 witness. -/
theorem context_rows_carry_line_numbers_witness :
    (∃ o n, (some 4 : Option Nat) = some o ∧
      (some 7 : Option Nat) = some n ∧
      DiffRow.context "c" o n ∈ [DiffRow.context "c" 4 7]) ∧
    getDiffRowsFromHunk sampleBadHunk ChangedFile.committed none = none :=
  ⟨(context_rows_carry_line_numbers sampleContextHunk ChangedFile.committed
      none).1 [DiffRow.context "c" 4 7] (by decide)
      ⟨"c", DiffLineType.Context, some 4, some 7, false⟩ (by decide) rfl,
   (context_rows_carry_line_numbers sampleBadHunk ChangedFile.committed
      none).2
      ⟨⟨"c", DiffLineType.Context, none, some 7, false⟩, by decide, rfl,
        Or.inl rfl⟩⟩

/-- C3: for every diff line number, persisted selection and transient
selection, the displayed selected state equals persisted OR
inside-transient-range under select intent, persisted AND NOT
inside-transient-range under deselect intent, and with no transient
selection it equals the persisted state. -/
theorem displayed_selection_combines_persisted_and_transient (n : ℕ)
    (S : DiffSelection) (temp : ISelection) :
    (isInSelection n (ChangedFile.workingDirectory S) (some temp) =
      if temp.isSelected then
        (S.isSelected n ||
          (min temp.fromLine temp.toLine ≤ n &&
            n ≤ max temp.fromLine temp.toLine))
      else
        (S.isSelected n &&
          !(min temp.fromLine temp.toLine ≤ n &&
            n ≤ max temp.fromLine temp.toLine)))
    ∧ isInSelection n (ChangedFile.workingDirectory S) none =
        S.isSelected n := by
  refine ⟨?_, rfl⟩
  cases h : temp.isSelected <;>
    simp [isInSelection, isInTemporarySelection, h]

/-- C10: for a file that is not selectable (not a working-directory
change), the displayed selected state of every line is false regardless of
the transient selection. -/
theorem unselectable_file_line_never_selected (n : ℕ)
    (temporarySelection : Option ISelection) :
    isInSelection n ChangedFile.committed temporarySelection = false := rfl

/-- C5 counterexample: with a transient selection active and no
include-changed collaborator registered, pointer-up does NOT reset the
transient selection to none (the handler guard returns before the state
reset), contradicting the claim that the transient state is still
discarded. -/
theorem readonly_pointer_up_retains_transient :
    (onEndSelection (ChangedFile.workingDirectory ⟨∅⟩) false
        ⟨some ⟨3, 5, true⟩, none⟩).1.selection = some ⟨3, 5, true⟩ ∧
    (onEndSelection (ChangedFile.workingDirectory ⟨∅⟩) false
        ⟨some ⟨3, 5, true⟩, none⟩).1.selection ≠ none := by
  constructor
  · rfl
  · simp [onEndSelection]

/-- C5 amended: if pointer-up occurs while no include-changed collaborator
is registered, the handler is a complete no-op: the persisted selection is
not mutated (no update is emitted) and the transient selection is
retained, not discarded. -/
theorem readonly_pointer_up_is_noop (file : ChangedFile)
    (st : SelectionTrackerState) :
    onEndSelection file false st = (st, none) := by
  cases file with
  | committed => rfl
  | workingDirectory S =>
    cases h : st.selection with
    | none => simp [onEndSelection, h]
    | some sel => simp [onEndSelection, h]

/-- C8 counterexample: starting a drag while a hunk is hovered leaves the
hovered-hunk indicator in place (React's merging `setState` never touches
it), contradicting the claim that entering drag mode clears it. -/
theorem drag_start_keeps_hover_indicator :
    (onStartSelection 3 true ⟨none, some 5⟩).hoveredHunk = some 5 ∧
    (onStartSelection 3 true ⟨none, some 5⟩).hoveredHunk ≠ none := by
  exact ⟨rfl, by simp [onStartSelection]⟩

/-- C8 amended: hovering a hunk header while no drag is active sets the
hovered-hunk indicator to that hunk; while a drag is active every hover
update is suppressed; and starting a drag leaves any existing hover
indicator unchanged (it is not cleared). -/
theorem hover_updates_suppressed_during_drag (hunkStartLine : Nat)
    (st : SelectionTrackerState) :
    (st.selection = none →
      onMouseEnterHunk hunkStartLine st =
        { st with hoveredHunk := some hunkStartLine })
    ∧ (st.selection ≠ none → onMouseEnterHunk hunkStartLine st = st)
    ∧ (∀ lineNumber select,
        (onStartSelection lineNumber select st).hoveredHunk =
          st.hoveredHunk) := by
  refine ⟨fun h => ?_, fun h => ?_, fun _ _ => rfl⟩
  · simp [onMouseEnterHunk, h]
  · cases hsel : st.selection with
    | none => exact absurd hsel h
    | some sel => simp [onMouseEnterHunk, hsel]

/-- C8 witness. -/
theorem hover_updates_suppressed_during_drag_witness :
    onMouseEnterHunk 7 ⟨none, none⟩ = ⟨none, some 7⟩ ∧
    onMouseEnterHunk 7 ⟨some ⟨1, 2, true⟩, some 4⟩ =
      ⟨some ⟨1, 2, true⟩, some 4⟩ :=
  ⟨(hover_updates_suppressed_during_drag 7 ⟨none, none⟩).1 rfl,
   (hover_updates_suppressed_during_drag 7
      ⟨some ⟨1, 2, true⟩, some 4⟩).2.1 (by simp)⟩

/-- C9: a completed path-existence check is dropped when the checked path
no longer equals the current path; otherwise an existing path sets the
named destination-exists error (which disables submission for as long as
it is set) and a non-existing path clears the error. -/
theorem path_check_sets_named_error_and_disables_submit (newPath : String)
    (pathExists : Bool) (st : CloneRepositoryState) :
    (st.path ≠ newPath → checkPathValidCompletion newPath pathExists st = st)
    ∧ (st.path = newPath → pathExists = true →
        (checkPathValidCompletion newPath pathExists st).error =
          some ⟨DestinationExistsErrorName, "The destination already exists."⟩)
    ∧ (st.path = newPath → pathExists = false →
        (checkPathValidCompletion newPath pathExists st).error = none)
    ∧ (∀ st' : CloneRepositoryState, ∀ e : DialogErrorValue,
        st'.error = some e → e.name = DestinationExistsErrorName →
        cloneSubmitDisabled st' = true) := by
  refine ⟨fun h => ?_, fun h hex => ?_, fun h hex => ?_, fun st' e he hn => ?_⟩
  · simp [checkPathValidCompletion, h]
  · simp [checkPathValidCompletion, h, hex]
  · simp [checkPathValidCompletion, h, hex]
  · simp [cloneSubmitDisabled, he, hn]

/-- C4: with a transient selection from anchor `a` to current `c` and an
include-changed collaborator registered, pointer-up emits exactly one range
update: the persisted selection with the inclusive range
`[min a c, max a c]` set to the captured intent, and clears the transient
selection; the result is invariant under swapping anchor and current. -/
theorem drag_end_applies_one_symmetric_range_update (S : DiffSelection)
    (a c : ℕ) (intent : Bool) (hov : Option Nat) :
    (onEndSelection (ChangedFile.workingDirectory S) true
        ⟨some ⟨a, c, intent⟩, hov⟩ =
      (⟨none, hov⟩,
       some (S.withRangeSelection (min a c) (max a c - min a c + 1) intent)))
    ∧ (∀ n, (S.withRangeSelection (min a c) (max a c - min a c + 1)
          intent).isSelected n =
        if min a c ≤ n ∧ n ≤ max a c then intent else S.isSelected n)
    ∧ onEndSelection (ChangedFile.workingDirectory S) true
        ⟨some ⟨a, c, intent⟩, hov⟩ =
      onEndSelection (ChangedFile.workingDirectory S) true
        ⟨some ⟨c, a, intent⟩, hov⟩ := by
  refine ⟨rfl, fun n => ?_, ?_⟩
  · have hcond : (min a c ≤ n ∧ n < min a c + (max a c - min a c + 1)) ↔
        (min a c ≤ n ∧ n ≤ max a c) := by omega
    rw [withRangeSelection_isSelected, if_congr hcond rfl rfl]
  · have h1 : onEndSelection (ChangedFile.workingDirectory S) true
        ⟨some ⟨a, c, intent⟩, hov⟩ =
        (⟨none, hov⟩, some (S.withRangeSelection (min a c)
          (max a c - min a c + 1) intent)) := rfl
    have h2 : onEndSelection (ChangedFile.workingDirectory S) true
        ⟨some ⟨c, a, intent⟩, hov⟩ =
        (⟨none, hov⟩, some (S.withRangeSelection (min c a)
          (max c a - min c a + 1) intent)) := rfl
    rw [h1, h2, Nat.min_comm a c, Nat.max_comm a c]

/-- C6: the result of an in-flight tokenization pass is discarded (the
token state is left unchanged) whenever the live file identity or diff
text differs from the issue-time snapshot at either asynchronous
checkpoint, and the token state is updated only when both checkpoints
still match the snapshot. -/
theorem stale_tokenization_result_discarded {Tok : Type}
    (snapshot propsAtContents propsAtHighlight : HighlightProps)
    (oldTokens newTokens : Tok) (st : TokenState Tok) :
    ((propsAtContents.fileId ≠ snapshot.fileId ∨
      propsAtContents.diffText ≠ snapshot.diffText ∨
      propsAtHighlight.fileId ≠ snapshot.fileId ∨
      propsAtHighlight.diffText ≠ snapshot.diffText) →
      initDiffSyntaxMode snapshot propsAtContents propsAtHighlight
        oldTokens newTokens st = st)
    ∧ (initDiffSyntaxMode snapshot propsAtContents propsAtHighlight
        oldTokens newTokens st ≠ st →
      (propsAtContents.fileId = snapshot.fileId ∧
       propsAtContents.diffText = snapshot.diffText ∧
       propsAtHighlight.fileId = snapshot.fileId ∧
       propsAtHighlight.diffText = snapshot.diffText) ∧
      initDiffSyntaxMode snapshot propsAtContents propsAtHighlight
        oldTokens newTokens st =
        ⟨some oldTokens, some newTokens⟩) := by
  have hiff : ∀ p q : HighlightProps, highlightParametersEqual p q = true ↔
      p.fileId = q.fileId ∧ p.diffText = q.diffText := by
    intro p q
    simp [highlightParametersEqual]
  by_cases h1 : highlightParametersEqual propsAtContents snapshot
  · by_cases h2 : highlightParametersEqual propsAtHighlight snapshot
    · refine ⟨fun h => ?_, fun _ => ?_⟩
      · rw [hiff] at h1 h2
        tauto
      · refine ⟨?_, by simp [initDiffSyntaxMode, h1, h2]⟩
        rw [hiff] at h1 h2
        tauto
    · refine ⟨fun _ => ?_, fun hne => absurd ?_ hne⟩ <;>
        simp [initDiffSyntaxMode, h1, h2]
  · refine ⟨fun _ => ?_, fun hne => absurd ?_ hne⟩ <;>
      simp [initDiffSyntaxMode, h1]

/-- C6 witness. -/
theorem stale_tokenization_result_discarded_witness :
    initDiffSyntaxMode ⟨"f1", "d1"⟩ ⟨"f2", "d1"⟩ ⟨"f1", "d1"⟩ 10 20
      (⟨some 1, some 2⟩ : TokenState ℕ) = ⟨some 1, some 2⟩ :=
  (stale_tokenization_result_discarded ⟨"f1", "d1"⟩ ⟨"f2", "d1"⟩
    ⟨"f1", "d1"⟩ 10 20 ⟨some 1, some 2⟩).1 (Or.inl (by decide))

/-- C9 witness. -/
theorem path_check_sets_named_error_and_disables_submit_witness :
    (checkPathValidCompletion "q" true
        ⟨"u", "p", false, none⟩ = ⟨"u", "p", false, none⟩) ∧
    ((checkPathValidCompletion "p" true ⟨"u", "p", false, none⟩).error =
      some ⟨DestinationExistsErrorName, "The destination already exists."⟩) ∧
    ((checkPathValidCompletion "p" false
        ⟨"u", "p", false,
          some ⟨DestinationExistsErrorName, "The destination already exists."⟩⟩).error
      = none) ∧
    cloneSubmitDisabled
      ⟨"u", "p", false,
        some ⟨DestinationExistsErrorName, "The destination already exists."⟩⟩
      = true :=
  ⟨(path_check_sets_named_error_and_disables_submit "q" true
      ⟨"u", "p", false, none⟩).1 (by decide),
   (path_check_sets_named_error_and_disables_submit "p" true
      ⟨"u", "p", false, none⟩).2.1 rfl rfl,
   (path_check_sets_named_error_and_disables_submit "p" false
      ⟨"u", "p", false,
        some ⟨DestinationExistsErrorName,
          "The destination already exists."⟩⟩).2.2.1 rfl rfl,
   (path_check_sets_named_error_and_disables_submit "p" false
      ⟨"u", "p", false, none⟩).2.2.2
     ⟨"u", "p", false,
       some ⟨DestinationExistsErrorName, "The destination already exists."⟩⟩
     ⟨DestinationExistsErrorName, "The destination already exists."⟩ rfl rfl⟩
